import Mathlib

/-!
Verification development for the Uptimer monitoring service.

The definitions below are shallow embeddings of the TypeScript source:
* interval algebra (`packages`-side `uptime` module: `mergeIntervals`,
  `sumIntervals`, `overlapSeconds`, `buildUnknownIntervals`),
* the daily rollup computation (`runDailyRollup`),
* the public status payload builder (`computePublicStatusPayload`),
* the scheduler persistence batch and notification decision
  (`persistCheckAndState`, `runDueMonitor`),
* snapshot cache headers (`applyStatusCacheHeaders`),
* monitor target validation (`isBlockedIpLiteral`, `isAllowedPort`).

Timestamps and interval endpoints are JavaScript numbers holding integer
unix seconds; they are modelled as `Int`.  Status values are string
literals in the source and are modelled as `String`.
-/

namespace Uptimer

/-- `Interval` from the uptime analytics module: a half-open `[start, end)`
pair of integer seconds.  The TypeScript type places no constraint on the
two fields. -/
structure Interval where
  start : Int
  stop : Int
  deriving Repr, DecidableEq

namespace Interval

/-- The set of integer seconds covered by one interval. -/
def toFinset (it : Interval) : Finset Int := Finset.Ico it.start it.stop

end Interval

/-- One step of the merge sweep.  The accumulator holds the merged output in
reverse order; the TypeScript code mutates the last pushed element
(`prev.end = Math.max(prev.end, next.end)`), which corresponds to replacing
the head here. -/
def mergeInto (acc : List Interval) (cur : Interval) : List Interval :=
  match acc with
  | [] => [cur]
  | prev :: tail =>
    if cur.start ≤ prev.stop then
      ⟨prev.start, max prev.stop cur.stop⟩ :: tail
    else
      cur :: prev :: tail

/-- `mergeIntervals` (analytics/uptime): sort a copy by `start`, then sweep,
coalescing `next.start ≤ prev.end` into `prev.end = max(prev.end, next.end)`.
The JavaScript `Array.prototype.sort` is stable with comparator
`a.start - b.start`; `List.mergeSort` with `≤` on `start` is the same
stable sort. -/
def mergeIntervals (intervals : List Interval) : List Interval :=
  let sorted := intervals.mergeSort (fun a b => a.start ≤ b.start)
  (sorted.foldl mergeInto []).reverse

/-- `sumIntervals`: `reduce((acc, it) => acc + Math.max(0, it.end - it.start), 0)`. -/
def sumIntervals (intervals : List Interval) : Int :=
  intervals.foldl (fun acc it => acc + max 0 (it.stop - it.start)) 0

/-- `overlapSeconds`: two-pointer sweep over two interval lists, summing
`max(0, min(x.end, y.end) - max(x.start, y.start))` and advancing the
pointer whose `end` is smaller. -/
def overlapSeconds : List Interval → List Interval → Int
  | [], _ => 0
  | _ :: _, [] => 0
  | x :: xs, y :: ys =>
    let lo := max x.start y.start
    let hi := min x.stop y.stop
    let add := if lo < hi then hi - lo else 0
    if x.stop ≤ y.stop then
      add + overlapSeconds xs (y :: ys)
    else
      add + overlapSeconds (x :: xs) ys

/-- `ensureInterval`: drop empty or reversed intervals.  (The
`Number.isFinite` guards of the source are vacuous over `Int`.) -/
def ensureInterval (it : Interval) : Option Interval :=
  if it.stop ≤ it.start then none else some it

/-- `pushMergedInterval` merges into the accumulator exactly like the sweep
step of `mergeIntervals`; the accumulator is again kept in reverse order. -/
def pushMergedInterval (acc : List Interval) (next : Interval) : List Interval :=
  mergeInto acc next

/-- `addUnknown` inside `buildUnknownIntervals`. -/
def addUnknown (acc : List Interval) (fromSec toSec : Int) : List Interval :=
  match ensureInterval ⟨fromSec, toSec⟩ with
  | none => acc
  | some it => pushMergedInterval acc it

/-- A persisted check as seen by the analytics code: `{checked_at, status}`. -/
structure UptimeCheck where
  checked_at : Int
  status : String
  deriving Repr, DecidableEq

/-- `processSegment` inside `buildUnknownIntervals`: classify the segment
`[segStart, segEnd)` against the last seen check, whose coverage extends to
`checked_at + 2 * intervalSec`. -/
def processSegment (intervalSec : Int) (lastCheck : Option UptimeCheck)
    (acc : List Interval) (segStart segEnd : Int) : List Interval :=
  if segEnd ≤ segStart then acc
  else
    match lastCheck with
    | none => addUnknown acc segStart segEnd
    | some lc =>
      let validUntil := lc.checked_at + intervalSec * 2
      if validUntil ≤ segStart then addUnknown acc segStart segEnd
      else
        let coveredEnd := min segEnd validUntil
        let acc' := if lc.status = "unknown" then addUnknown acc segStart coveredEnd else acc
        if coveredEnd < segEnd then addUnknown acc' coveredEnd segEnd else acc'

/-- The `for (const check of checks)` loop of `buildUnknownIntervals`:
carries `lastCheck`, `cursor` and the accumulated unknown intervals;
breaks at the first check with `checked_at >= rangeEnd`. -/
def buildLoop (rangeStart rangeEnd intervalSec : Int) :
    List UptimeCheck → Option UptimeCheck → Int → List Interval →
    Option UptimeCheck × Int × List Interval
  | [], lastCheck, cursor, acc => (lastCheck, cursor, acc)
  | c :: rest, lastCheck, cursor, acc =>
    if c.checked_at < rangeStart then
      buildLoop rangeStart rangeEnd intervalSec rest (some c) cursor acc
    else if rangeEnd ≤ c.checked_at then
      (lastCheck, cursor, acc)
    else
      buildLoop rangeStart rangeEnd intervalSec rest (some c) c.checked_at
        (processSegment intervalSec lastCheck acc cursor c.checked_at)

/-- `buildUnknownIntervals(rangeStart, rangeEnd, intervalSec, checks)`
(analytics/uptime): the sub-intervals of `[rangeStart, rangeEnd)` that are
uncovered, or covered only by a check whose status was literally
`"unknown"`.  The accumulator is reversed at the end to restore
chronological order. -/
def buildUnknownIntervals (rangeStart rangeEnd intervalSec : Int)
    (checks : List UptimeCheck) : List Interval :=
  if rangeEnd ≤ rangeStart then []
  else if intervalSec ≤ 0 then [⟨rangeStart, rangeEnd⟩]
  else
    let (lastCheck, cursor, acc) :=
      buildLoop rangeStart rangeEnd intervalSec checks none rangeStart []
    (processSegment intervalSec lastCheck acc cursor rangeEnd).reverse

/-! ### Canonical interval lists

The merge sweep keeps its accumulator in reverse chronological order.  We
track three invariants through it: strict separation of neighbours,
positivity of each interval, and containment in an ambient range. -/

/-- Strict separation of two intervals: the first ends before the second
starts. -/
def Sep (a b : Interval) : Prop := a.stop < b.start

/-- Every interval in the list is non-empty. -/
def Pos (l : List Interval) : Prop := ∀ it ∈ l, it.start < it.stop

/-- Separation for a reversed accumulator: each element ends before the
previously pushed (later) element starts. -/
def RevSep (acc : List Interval) : Prop :=
  List.Chain' (fun a b => b.stop < a.start) acc

/-- All intervals lie inside `[lo, hi]`. -/
def Bnds (lo hi : Int) (l : List Interval) : Prop :=
  ∀ it ∈ l, lo ≤ it.start ∧ it.stop ≤ hi

theorem mergeInto_revSep {acc : List Interval} (cur : Interval) (h : RevSep acc) :
    RevSep (mergeInto acc cur) := by
  unfold mergeInto
  match acc with
  | [] => simp [RevSep]
  | prev :: tail =>
    simp only
    split
    · cases tail with
      | nil => simp [RevSep]
      | cons t ts =>
        have h1 := (List.chain'_cons.mp h).1
        have h2 := (List.chain'_cons.mp h).2
        exact List.chain'_cons.mpr ⟨h1, h2⟩
    · rename_i hgt
      exact List.chain'_cons.mpr ⟨by omega, h⟩

theorem mergeInto_pos {acc : List Interval} {cur : Interval} (h : Pos acc)
    (hc : cur.start < cur.stop) : Pos (mergeInto acc cur) := by
  unfold mergeInto
  match acc with
  | [] => intro it hit; simp at hit; subst hit; exact hc
  | prev :: tail =>
    simp only
    split
    · intro it hit
      rcases List.mem_cons.mp hit with h1 | h2
      · subst h1
        have := h prev (List.mem_cons_self _ _)
        simp only
        omega
      · exact h it (List.mem_cons_of_mem _ h2)
    · intro it hit
      rcases List.mem_cons.mp hit with h1 | h2
      · subst h1; exact hc
      · exact h it h2

theorem mergeInto_bnds {lo hi : Int} {acc : List Interval} {cur : Interval}
    (h : Bnds lo hi acc) (hc : lo ≤ cur.start ∧ cur.stop ≤ hi) :
    Bnds lo hi (mergeInto acc cur) := by
  unfold mergeInto
  match acc with
  | [] => intro it hit; simp at hit; subst hit; exact hc
  | prev :: tail =>
    simp only
    split
    · intro it hit
      rcases List.mem_cons.mp hit with h1 | h2
      · subst h1
        have := h prev (List.mem_cons_self _ _)
        simp only
        omega
      · exact h it (List.mem_cons_of_mem _ h2)
    · intro it hit
      rcases List.mem_cons.mp hit with h1 | h2
      · subst h1; exact hc
      · exact h it h2

theorem mergeInto_start_mem {acc : List Interval} {cur it : Interval}
    (hit : it ∈ mergeInto acc cur) :
    it.start = cur.start ∨ ∃ a ∈ acc, it.start = a.start := by
  unfold mergeInto at hit
  match acc with
  | [] => simp at hit; subst hit; exact Or.inl rfl
  | prev :: tail =>
    simp only at hit
    split at hit
    · rcases List.mem_cons.mp hit with h1 | h2
      · subst h1; exact Or.inr ⟨prev, List.mem_cons_self _ _, rfl⟩
      · exact Or.inr ⟨it, List.mem_cons_of_mem _ h2, rfl⟩
    · rcases List.mem_cons.mp hit with h1 | h2
      · subst h1; exact Or.inl rfl
      · exact Or.inr ⟨it, h2, rfl⟩

/-- Starts of a reversed accumulator are non-increasing. -/
def RevStarts (acc : List Interval) : Prop :=
  List.Chain' (fun a b => b.start ≤ a.start) acc

theorem mergeInto_revStarts {acc : List Interval} {cur : Interval}
    (h : RevStarts acc) (hcur : ∀ a ∈ acc, a.start ≤ cur.start) :
    RevStarts (mergeInto acc cur) := by
  unfold mergeInto
  match acc with
  | [] => simp [RevStarts]
  | prev :: tail =>
    simp only
    split
    · cases tail with
      | nil => simp [RevStarts]
      | cons t ts =>
        have h1 := (List.chain'_cons.mp h).1
        have h2 := (List.chain'_cons.mp h).2
        exact List.chain'_cons.mpr ⟨h1, h2⟩
    · exact List.chain'_cons.mpr ⟨hcur prev (List.mem_cons_self _ _), h⟩

theorem foldl_mergeInto_revSep {l : List Interval} {acc : List Interval}
    (h : RevSep acc) : RevSep (l.foldl mergeInto acc) := by
  induction l generalizing acc with
  | nil => exact h
  | cons x xs ih => exact ih (mergeInto_revSep x h)

theorem foldl_mergeInto_pos {l : List Interval} {acc : List Interval}
    (h : Pos acc) (hl : Pos l) : Pos (l.foldl mergeInto acc) := by
  induction l generalizing acc with
  | nil => exact h
  | cons x xs ih =>
    exact ih (mergeInto_pos h (hl x (List.mem_cons_self _ _)))
      (fun it hit => hl it (List.mem_cons_of_mem _ hit))

theorem foldl_mergeInto_bnds {lo hi : Int} {l : List Interval} {acc : List Interval}
    (h : Bnds lo hi acc) (hl : Bnds lo hi l) : Bnds lo hi (l.foldl mergeInto acc) := by
  induction l generalizing acc with
  | nil => exact h
  | cons x xs ih =>
    exact ih (mergeInto_bnds h (hl x (List.mem_cons_self _ _)))
      (fun it hit => hl it (List.mem_cons_of_mem _ hit))

theorem foldl_mergeInto_revStarts {l : List Interval} {acc : List Interval}
    (hsorted : List.Pairwise (fun a b : Interval => a.start ≤ b.start) l)
    (h : RevStarts acc) (hconn : ∀ a ∈ acc, ∀ b ∈ l, a.start ≤ b.start) :
    RevStarts (l.foldl mergeInto acc) := by
  induction l generalizing acc with
  | nil => exact h
  | cons x xs ih =>
    have hx : ∀ a ∈ acc, a.start ≤ x.start :=
      fun a ha => hconn a ha x (List.mem_cons_self _ _)
    refine ih (List.pairwise_cons.mp hsorted).2 (mergeInto_revStarts h hx) ?_
    intro a ha b hb
    rcases mergeInto_start_mem ha with h1 | ⟨c, hc, h2⟩
    · rw [h1]; exact (List.pairwise_cons.mp hsorted).1 b hb
    · rw [h2]; exact hconn c hc b (List.mem_cons_of_mem _ hb)

theorem revSep_reverse {acc : List Interval} (h : RevSep acc) :
    List.Chain' Sep acc.reverse :=
  List.chain'_reverse.mpr h

theorem revStarts_reverse {acc : List Interval} (h : RevStarts acc) :
    List.Chain' (fun a b : Interval => a.start ≤ b.start) acc.reverse :=
  List.chain'_reverse.mpr h

theorem chain'_starts_le {x : Interval} {xs : List Interval}
    (h : List.Chain' (fun a b : Interval => a.start ≤ b.start) (x :: xs)) :
    ∀ y ∈ xs, x.start ≤ y.start := by
  induction xs generalizing x with
  | nil => intro y hy; cases hy
  | cons z zs ih =>
    intro y hy
    have h1 := (List.chain'_cons.mp h).1
    have h2 := (List.chain'_cons.mp h).2
    rcases List.mem_cons.mp hy with rfl | hmem
    · exact h1
    · exact le_trans h1 (ih h2 y hmem)

/-- Strict separation of neighbours plus monotone starts gives full pairwise
separation. -/
theorem pairwise_sep_of_chains {l : List Interval}
    (hsep : List.Chain' Sep l)
    (hstarts : List.Chain' (fun a b : Interval => a.start ≤ b.start) l) :
    List.Pairwise Sep l := by
  induction l with
  | nil => exact List.Pairwise.nil
  | cons x xs ih =>
    refine List.pairwise_cons.mpr ⟨?_, ih hsep.tail hstarts.tail⟩
    intro y hy
    cases xs with
    | nil => cases hy
    | cons z zs =>
      have hxz : Sep x z := (List.chain'_cons.mp hsep).1
      rcases List.mem_cons.mp hy with rfl | hmem
      · exact hxz
      · have : z.start ≤ y.start := chain'_starts_le hstarts.tail y hmem
        unfold Sep at hxz ⊢
        omega

/-- Separated neighbours of positive intervals have non-decreasing starts. -/
theorem chain'_sep_starts {l : List Interval}
    (hsep : List.Chain' Sep l) (hpos : Pos l) :
    List.Chain' (fun a b : Interval => a.start ≤ b.start) l := by
  induction l with
  | nil => exact List.chain'_nil
  | cons x xs ih =>
    cases xs with
    | nil => simp
    | cons z zs =>
      have hxz : Sep x z := (List.chain'_cons.mp hsep).1
      have hx : x.start < x.stop := hpos x (List.mem_cons_self _ _)
      refine List.chain'_cons.mpr ⟨by unfold Sep at hxz; omega, ?_⟩
      exact ih hsep.tail (fun it hit => hpos it (List.mem_cons_of_mem _ hit))

/-- Positive intervals with separated neighbours are fully pairwise
separated. -/
theorem pairwise_sep_of_chain_pos {l : List Interval}
    (hsep : List.Chain' Sep l) (hpos : Pos l) : List.Pairwise Sep l :=
  pairwise_sep_of_chains hsep (chain'_sep_starts hsep hpos)

/-- The output of `mergeIntervals` always has strictly separated neighbours
with non-decreasing starts, hence is pairwise separated. -/
theorem mergeIntervals_pairwise (l : List Interval) :
    List.Pairwise Sep (mergeIntervals l) := by
  unfold mergeIntervals
  have hsorted : List.Pairwise (fun a b : Interval => a.start ≤ b.start)
      (l.mergeSort (fun a b => a.start ≤ b.start)) := by
    have := @List.sorted_mergeSort Interval (fun a b => decide (a.start ≤ b.start))
      (fun a b c hab hbc => by
        simp only [decide_eq_true_eq] at *; omega)
      (fun a b => by simp only [Bool.or_eq_true, decide_eq_true_eq]; omega) l
    simpa using this
  refine pairwise_sep_of_chains
    (revSep_reverse (foldl_mergeInto_revSep (by simp [RevSep])))
    (revStarts_reverse (foldl_mergeInto_revStarts hsorted (by simp [RevStarts])
      (by intro a ha; cases ha)))

theorem mergeIntervals_pos {l : List Interval} (h : Pos l) :
    Pos (mergeIntervals l) := by
  unfold mergeIntervals
  intro it hit
  refine foldl_mergeInto_pos (by intro a ha; cases ha) ?_ it (List.mem_reverse.mp hit)
  intro a ha
  exact h a (List.mem_mergeSort.mp ha)

theorem mergeIntervals_bnds {lo hi : Int} {l : List Interval} (h : Bnds lo hi l) :
    Bnds lo hi (mergeIntervals l) := by
  unfold mergeIntervals
  intro it hit
  refine foldl_mergeInto_bnds (by intro a ha; cases ha) ?_ it (List.mem_reverse.mp hit)
  intro a ha
  exact h a (List.mem_mergeSort.mp ha)

theorem mergeIntervals_chain'_sep (l : List Interval) :
    List.Chain' Sep (mergeIntervals l) := by
  unfold mergeIntervals
  exact revSep_reverse (foldl_mergeInto_revSep (by simp [RevSep]))

/-! ### Interval lists as sets of integer seconds -/

/-- The set of integer seconds covered by a list of intervals. -/
def cover (l : List Interval) : Finset Int :=
  l.foldr (fun it acc => it.toFinset ∪ acc) ∅

@[simp] theorem cover_nil : cover [] = ∅ := rfl

@[simp] theorem cover_cons (x : Interval) (xs : List Interval) :
    cover (x :: xs) = x.toFinset ∪ cover xs := rfl

theorem mem_cover {t : Int} {l : List Interval} :
    t ∈ cover l ↔ ∃ it ∈ l, it.start ≤ t ∧ t < it.stop := by
  induction l with
  | nil => simp
  | cons x xs ih =>
    simp [Interval.toFinset, ih, Finset.mem_Ico]

theorem cover_subset_Ico {lo hi : Int} {l : List Interval} (h : Bnds lo hi l) :
    cover l ⊆ Finset.Ico lo hi := by
  intro t ht
  rcases mem_cover.mp ht with ⟨it, hmem, h1, h2⟩
  have := h it hmem
  simp only [Finset.mem_Ico]
  omega

theorem cover_lower {x : Interval} {xs : List Interval}
    (hsep : List.Chain' Sep (x :: xs)) (hpos : Pos (x :: xs)) :
    ∀ t ∈ cover (x :: xs), x.start ≤ t := by
  intro t ht
  rcases mem_cover.mp ht with ⟨it, hmem, h1, _⟩
  rcases List.mem_cons.mp hmem with rfl | hmem'
  · exact h1
  · have := List.rel_of_pairwise_cons (pairwise_sep_of_chain_pos hsep hpos) hmem'
    have hx : x.start < x.stop := hpos x (List.mem_cons_self _ _)
    unfold Sep at this
    omega

theorem foldl_add_max_init (l : List Interval) (a : Int) :
    l.foldl (fun acc it => acc + max 0 (it.stop - it.start)) a
      = a + (l.map (fun it => max 0 (it.stop - it.start))).sum := by
  induction l generalizing a with
  | nil => simp
  | cons x xs ih =>
    rw [List.foldl_cons, ih, List.map_cons, List.sum_cons]
    ring

theorem sumIntervals_eq_sum_map (l : List Interval) :
    sumIntervals l = (l.map (fun it => max 0 (it.stop - it.start))).sum := by
  unfold sumIntervals
  rw [foldl_add_max_init]
  ring

theorem sumIntervals_cons (x : Interval) (xs : List Interval) :
    sumIntervals (x :: xs) = max 0 (x.stop - x.start) + sumIntervals xs := by
  rw [sumIntervals_eq_sum_map, sumIntervals_eq_sum_map, List.map_cons, List.sum_cons]

theorem sumIntervals_nonneg (l : List Interval) : 0 ≤ sumIntervals l := by
  rw [sumIntervals_eq_sum_map]
  refine List.sum_nonneg ?_
  intro a ha
  rcases List.mem_map.mp ha with ⟨it, _, rfl⟩
  exact le_max_left _ _

/-- On a canonical (separated, positive) list, the sweep total equals the
cardinality of the covered set. -/
theorem card_cover_eq_sum {l : List Interval}
    (hsep : List.Chain' Sep l) (hpos : Pos l) :
    ((cover l).card : Int) = sumIntervals l := by
  induction l with
  | nil => simp [sumIntervals]
  | cons x xs ih =>
    have hdisj : Disjoint x.toFinset (cover xs) := by
      rw [Finset.disjoint_left]
      intro t ht htc
      have h1 : t < x.stop := by
        have := Finset.mem_Ico.mp ht
        exact this.2
      cases xs with
      | nil => simp at htc
      | cons z zs =>
        have hz : z.start ≤ t :=
          cover_lower hsep.tail
            (fun it hit => hpos it (List.mem_cons_of_mem _ hit)) t htc
        have hxz : Sep x z := (List.chain'_cons.mp hsep).1
        unfold Sep at hxz
        omega
    rw [cover_cons, Finset.card_union_of_disjoint hdisj, sumIntervals_cons]
    have hx : x.start < x.stop := hpos x (List.mem_cons_self _ _)
    have hcard : ((x.toFinset).card : Int) = max 0 (x.stop - x.start) := by
      rw [Interval.toFinset, Int.card_Ico]
      rw [Int.toNat_of_nonneg (by omega)]
      omega
    push_cast
    rw [hcard, ih hsep.tail (fun it hit => hpos it (List.mem_cons_of_mem _ hit))]

theorem cover_tail_gt {x : Interval} {xs : List Interval}
    (hsep : List.Chain' Sep (x :: xs)) (hpos : Pos (x :: xs)) :
    ∀ t ∈ cover xs, x.stop < t := by
  intro t ht
  cases xs with
  | nil => simp at ht
  | cons z zs =>
    have hz : z.start ≤ t :=
      cover_lower hsep.tail (fun it hit => hpos it (List.mem_cons_of_mem _ hit)) t ht
    have hxz : Sep x z := (List.chain'_cons.mp hsep).1
    unfold Sep at hxz
    omega

theorem card_Ico_inter_Ico_le_add (x y : Interval) :
    ((x.toFinset ∩ y.toFinset).card : Int)
      ≤ if max x.start y.start < min x.stop y.stop
        then min x.stop y.stop - max x.start y.start else 0 := by
  rw [Interval.toFinset, Interval.toFinset, Finset.Ico_inter_Ico, Int.card_Ico]
  split
  · rw [Int.toNat_of_nonneg (by simp only [le_sub_iff_add_le]; omega)]
  · rename_i h
    rw [Int.toNat_of_nonpos (by simp only [sub_nonpos]; exact le_of_not_lt (by simpa using h))]
    simp

/-- The two-pointer sweep `overlapSeconds` is at least the cardinality of the
intersection of the two covered sets, for canonical inputs. -/
theorem overlap_aux : ∀ (n : Nat) (A B : List Interval), A.length + B.length ≤ n →
    List.Chain' Sep A → Pos A → List.Chain' Sep B → Pos B →
    ((cover A ∩ cover B).card : Int) ≤ overlapSeconds A B := by
  intro n
  induction n with
  | zero =>
    intro A B hlen _ _ _ _
    have hA : A = [] := List.length_eq_zero.mp (by omega)
    subst hA
    simp [overlapSeconds]
  | succ n ih =>
    intro A B hlen hA hpA hB hpB
    match A, B with
    | [], C => rw [overlapSeconds]; simp
    | x :: xs, [] => rw [overlapSeconds]; simp
    | x :: xs, y :: ys =>
      rw [overlapSeconds]
      have hxs_sep := hA.tail
      have hxs_pos : Pos xs := fun it hit => hpA it (List.mem_cons_of_mem _ hit)
      have hys_sep := hB.tail
      have hys_pos : Pos ys := fun it hit => hpB it (List.mem_cons_of_mem _ hit)
      split
      · rename_i hxy
        -- advance the first pointer
        have hsplit : cover (x :: xs) ∩ cover (y :: ys)
            = (x.toFinset ∩ cover (y :: ys)) ∪ (cover xs ∩ cover (y :: ys)) := by
          rw [cover_cons, Finset.union_inter_distrib_right]
        have hxIco : x.toFinset ∩ cover (y :: ys) = x.toFinset ∩ y.toFinset := by
          rw [cover_cons, Finset.inter_union_distrib_left]
          have : x.toFinset ∩ cover ys = ∅ := by
            rw [Finset.eq_empty_iff_forall_not_mem]
            intro t ht
            have h1 := (Finset.mem_inter.mp ht).1
            have h2 := (Finset.mem_inter.mp ht).2
            have h3 : t < x.stop := (Finset.mem_Ico.mp h1).2
            have h4 : y.stop < t := cover_tail_gt hB hpB t h2
            omega
          rw [this, Finset.union_empty]
        calc ((cover (x :: xs) ∩ cover (y :: ys)).card : Int)
            ≤ ((x.toFinset ∩ cover (y :: ys)).card : Int)
              + ((cover xs ∩ cover (y :: ys)).card : Int) := by
              rw [hsplit]
              exact_mod_cast Nat.cast_le.mpr (Finset.card_union_le _ _)
          _ ≤ _ := by
              rw [hxIco]
              have h1 := card_Ico_inter_Ico_le_add x y
              have h2 := ih xs (y :: ys) (by simp at hlen ⊢; omega)
                hxs_sep hxs_pos hB hpB
              omega
      · rename_i hxy
        -- advance the second pointer
        have hsplit : cover (x :: xs) ∩ cover (y :: ys)
            = (cover (x :: xs) ∩ y.toFinset) ∪ (cover (x :: xs) ∩ cover ys) := by
          rw [cover_cons y ys, Finset.inter_union_distrib_left]
        have hyIco : cover (x :: xs) ∩ y.toFinset = x.toFinset ∩ y.toFinset := by
          rw [cover_cons, Finset.union_inter_distrib_right]
          have : cover xs ∩ y.toFinset = ∅ := by
            rw [Finset.eq_empty_iff_forall_not_mem]
            intro t ht
            have h1 := (Finset.mem_inter.mp ht).1
            have h2 := (Finset.mem_inter.mp ht).2
            have h3 : t < y.stop := (Finset.mem_Ico.mp h2).2
            have h4 : x.stop < t := cover_tail_gt hA hpA t h1
            omega
          rw [this, Finset.union_empty]
        calc ((cover (x :: xs) ∩ cover (y :: ys)).card : Int)
            ≤ ((cover (x :: xs) ∩ y.toFinset).card : Int)
              + ((cover (x :: xs) ∩ cover ys).card : Int) := by
              rw [hsplit]
              exact_mod_cast Nat.cast_le.mpr (Finset.card_union_le _ _)
          _ ≤ _ := by
              rw [hyIco]
              have h1 := card_Ico_inter_Ico_le_add x y
              have h2 := ih (x :: xs) ys (by simp at hlen ⊢; omega)
                hA hpA hys_sep hys_pos
              omega

theorem overlap_ge_card_inter {A B : List Interval}
    (hA : List.Chain' Sep A) (hpA : Pos A)
    (hB : List.Chain' Sep B) (hpB : Pos B) :
    ((cover A ∩ cover B).card : Int) ≤ overlapSeconds A B :=
  overlap_aux (A.length + B.length) A B le_rfl hA hpA hB hpB

/-! ### Invariants of `buildUnknownIntervals` -/

theorem addUnknown_revSep {acc : List Interval} {f t : Int} (h : RevSep acc) :
    RevSep (addUnknown acc f t) := by
  unfold addUnknown ensureInterval
  split
  · split at *
    · exact h
    · rename_i heq; cases heq
  · rename_i it heq
    split at heq
    · cases heq
    · rename_i hlt
      cases heq
      exact mergeInto_revSep _ h

theorem addUnknown_pos {acc : List Interval} {f t : Int} (h : Pos acc) :
    Pos (addUnknown acc f t) := by
  unfold addUnknown ensureInterval
  split
  · split at *
    · exact h
    · rename_i heq; cases heq
  · rename_i it heq
    split at heq
    · cases heq
    · rename_i hlt
      cases heq
      exact mergeInto_pos h (by simpa using lt_of_not_le hlt)

theorem addUnknown_bnds {lo hi : Int} {acc : List Interval} {f t : Int}
    (h : Bnds lo hi acc) (hf : lo ≤ f) (ht : t ≤ hi) :
    Bnds lo hi (addUnknown acc f t) := by
  unfold addUnknown ensureInterval
  split
  · split at *
    · exact h
    · rename_i heq; cases heq
  · rename_i it heq
    split at heq
    · cases heq
    · cases heq
      exact mergeInto_bnds h ⟨hf, ht⟩

theorem processSegment_revSep {isec : Int} {lc : Option UptimeCheck}
    {acc : List Interval} {s e : Int} (h : RevSep acc) :
    RevSep (processSegment isec lc acc s e) := by
  unfold processSegment
  split
  · exact h
  · match lc with
    | none => exact addUnknown_revSep h
    | some c =>
      simp only
      split
      · exact addUnknown_revSep h
      · split
        · split
          · exact addUnknown_revSep (addUnknown_revSep h)
          · exact addUnknown_revSep h
        · split
          · exact addUnknown_revSep h
          · exact h

theorem processSegment_pos {isec : Int} {lc : Option UptimeCheck}
    {acc : List Interval} {s e : Int} (h : Pos acc) :
    Pos (processSegment isec lc acc s e) := by
  unfold processSegment
  split
  · exact h
  · match lc with
    | none => exact addUnknown_pos h
    | some c =>
      simp only
      split
      · exact addUnknown_pos h
      · split
        · split
          · exact addUnknown_pos (addUnknown_pos h)
          · exact addUnknown_pos h
        · split
          · exact addUnknown_pos h
          · exact h

theorem processSegment_bnds {lo hi isec : Int} {lc : Option UptimeCheck}
    {acc : List Interval} {s e : Int}
    (h : Bnds lo hi acc) (hs : lo ≤ s) (he : e ≤ hi) :
    Bnds lo hi (processSegment isec lc acc s e) := by
  unfold processSegment
  split
  · exact h
  · rename_i hse
    match lc with
    | none => exact addUnknown_bnds h hs he
    | some c =>
      simp only
      split
      · exact addUnknown_bnds h hs he
      · rename_i hvu
        split
        · split
          · refine addUnknown_bnds (addUnknown_bnds h hs ?_) ?_ he
            · exact le_trans (min_le_left _ _) he
            · simp only [le_min_iff]
              omega
          · refine addUnknown_bnds h ?_ he
            simp only [le_min_iff]
            omega
        · split
          · exact addUnknown_bnds h hs (le_trans (min_le_left _ _) he)
          · exact h

theorem buildLoop_inv (rs re isec : Int) :
    ∀ (checks : List UptimeCheck) (lc : Option UptimeCheck) (cursor : Int)
      (acc : List Interval), RevSep acc → Pos acc → Bnds rs re acc → rs ≤ cursor →
      RevSep (buildLoop rs re isec checks lc cursor acc).2.2 ∧
        Pos (buildLoop rs re isec checks lc cursor acc).2.2 ∧
        Bnds rs re (buildLoop rs re isec checks lc cursor acc).2.2 ∧
        rs ≤ (buildLoop rs re isec checks lc cursor acc).2.1 := by
  intro checks
  induction checks with
  | nil =>
    intro lc cursor acc h1 h2 h3 h4
    exact ⟨h1, h2, h3, h4⟩
  | cons c rest ih =>
    intro lc cursor acc h1 h2 h3 h4
    rw [buildLoop]
    split
    · exact ih (some c) cursor acc h1 h2 h3 h4
    · split
      · exact ⟨h1, h2, h3, h4⟩
      · rename_i hge hlt
        refine ih (some c) c.checked_at _ (processSegment_revSep h1)
          (processSegment_pos h2) (processSegment_bnds h3 h4 (by omega)) (by omega)

theorem buildUnknownIntervals_inv (rs re isec : Int) (checks : List UptimeCheck) :
    List.Chain' Sep (buildUnknownIntervals rs re isec checks) ∧
      Pos (buildUnknownIntervals rs re isec checks) ∧
      Bnds rs re (buildUnknownIntervals rs re isec checks) := by
  unfold buildUnknownIntervals
  split
  · exact ⟨List.chain'_nil, fun it hit => absurd hit (List.not_mem_nil it),
      fun it hit => absurd hit (List.not_mem_nil it)⟩
  · split
    · rename_i hre _
      refine ⟨by simp, ?_, ?_⟩
      · intro it hit
        simp at hit
        subst hit
        simpa using lt_of_not_le hre
      · intro it hit
        simp at hit
        subst hit
        exact ⟨le_refl _, le_refl _⟩
    · have hinv := buildLoop_inv rs re isec checks none rs []
        (by simp [RevSep]) (fun it hit => absurd hit (List.not_mem_nil it))
        (fun it hit => absurd hit (List.not_mem_nil it)) le_rfl
      obtain ⟨hsep, hpos, hbnd, hcur⟩ := hinv
      refine ⟨?_, ?_, ?_⟩
      · exact revSep_reverse (processSegment_revSep hsep)
      · intro it hit
        exact processSegment_pos hpos it (List.mem_reverse.mp hit)
      · intro it hit
        exact processSegment_bnds hbnd hcur le_rfl it (List.mem_reverse.mp hit)

/-! ### Daily rollup (`runDailyRollup`, rollup/daily.ts) -/

/-- An outage row as fetched by the rollup query: `{started_at, ended_at}`. -/
structure OutageRow where
  started_at : Int
  ended_at : Option Int
  deriving Repr, DecidableEq

/-- A check row as fetched by the rollup query:
`{checked_at, status, latency_ms}`. -/
structure CheckRow where
  checked_at : Int
  status : String
  latency_ms : Option Int
  deriving Repr, DecidableEq

namespace Rollup

/-- `toCheckStatus` in the daily-rollup module: closed-domain coercion with
default `'unknown'`. -/
def toCheckStatus (value : Option String) : String :=
  match value with
  | some "up" => "up"
  | some "down" => "down"
  | some "maintenance" => "maintenance"
  | some "unknown" => "unknown"
  | _ => "unknown"

end Rollup

/-- The time and count fields of one `monitor_daily_rollups` row.  (The
latency statistics of the row are produced by separate helpers and are not
modelled here.) -/
structure MonitorDailyRollup where
  total_sec : Int
  downtime_sec : Int
  unknown_sec : Int
  uptime_sec : Int
  checks_total : Nat
  checks_up : Nat
  checks_down : Nat
  checks_unknown : Nat
  checks_maintenance : Nat
  deriving Repr, DecidableEq

/-- The per-monitor body of `runDailyRollup`: clip and merge the outages
into downtime, build unknown intervals from the checks, subtract their
overlap, derive `unavailable`/`uptime`, and count in-range checks by
status. -/
def runDailyRollupRow (rangeStart rangeEnd intervalSec : Int)
    (outageRows : List OutageRow) (checkRows : List CheckRow) :
    MonitorDailyRollup :=
  let total_sec := max 0 (rangeEnd - rangeStart)
  let downtimeIntervals := mergeIntervals
    ((outageRows.map (fun r =>
        Interval.mk (max r.started_at rangeStart)
          (min (r.ended_at.getD rangeEnd) rangeEnd))).filter
      (fun it => decide (it.start < it.stop)))
  let downtime_sec := sumIntervals downtimeIntervals
  let checks := checkRows.map
    (fun r => UptimeCheck.mk r.checked_at (Rollup.toCheckStatus (some r.status)))
  let unknownIntervals := buildUnknownIntervals rangeStart rangeEnd intervalSec checks
  let unknown_sec :=
    max 0 (sumIntervals unknownIntervals
      - overlapSeconds unknownIntervals downtimeIntervals)
  let unavailable_sec := min total_sec (downtime_sec + unknown_sec)
  let uptime_sec := max 0 (total_sec - unavailable_sec)
  let inRange := checkRows.filter (fun r => decide (rangeStart ≤ r.checked_at))
  let checks_up :=
    (inRange.filter (fun r => Rollup.toCheckStatus (some r.status) == "up")).length
  let checks_down :=
    (inRange.filter (fun r => Rollup.toCheckStatus (some r.status) == "down")).length
  let checks_maintenance :=
    (inRange.filter (fun r => Rollup.toCheckStatus (some r.status) == "maintenance")).length
  let checks_unknown :=
    (inRange.filter (fun r =>
      !(Rollup.toCheckStatus (some r.status) == "up") &&
      !(Rollup.toCheckStatus (some r.status) == "down") &&
      !(Rollup.toCheckStatus (some r.status) == "maintenance"))).length
  { total_sec := total_sec
    downtime_sec := downtime_sec
    unknown_sec := unknown_sec
    uptime_sec := uptime_sec
    checks_total := checks_up + checks_down + checks_unknown + checks_maintenance
    checks_up := checks_up
    checks_down := checks_down
    checks_unknown := checks_unknown
    checks_maintenance := checks_maintenance }

/-- The heart of the rollup bound: for canonical interval lists inside
`[rs, re)`, downtime plus overlap-corrected unknown time cannot exceed the
width of the range. -/
theorem downtime_add_unknown_le {rs re : Int} {U D : List Interval}
    (hU_sep : List.Chain' Sep U) (hU_pos : Pos U) (hU_bnd : Bnds rs re U)
    (hD_sep : List.Chain' Sep D) (hD_pos : Pos D) (hD_bnd : Bnds rs re D)
    (hrange : rs ≤ re) :
    sumIntervals D + max 0 (sumIntervals U - overlapSeconds U D) ≤ re - rs := by
  have hDcard : ((cover D).card : Int) = sumIntervals D := card_cover_eq_sum hD_sep hD_pos
  have hUcard : ((cover U).card : Int) = sumIntervals U := card_cover_eq_sum hU_sep hU_pos
  have hov : ((cover U ∩ cover D).card : Int) ≤ overlapSeconds U D :=
    overlap_ge_card_inter hU_sep hU_pos hD_sep hD_pos
  have hunion : (cover U ∪ cover D).card ≤ (Finset.Ico rs re).card := by
    refine Finset.card_le_card ?_
    exact Finset.union_subset (cover_subset_Ico hU_bnd) (cover_subset_Ico hD_bnd)
  have hIco : ((Finset.Ico rs re).card : Int) = re - rs := by
    rw [Int.card_Ico, Int.toNat_of_nonneg (by omega)]
  have hsum := Finset.card_union_add_card_inter (cover U) (cover D)
  have hsub1 : (cover U).card ≤ (cover U ∪ cover D).card :=
    Finset.card_le_card Finset.subset_union_left
  have hsub2 : (cover D).card ≤ (cover U ∪ cover D).card :=
    Finset.card_le_card Finset.subset_union_right
  omega

/-- C2 invariant: the time budget and check counts of every rollup row are
consistent. -/
theorem runDailyRollupRow_invariants (rangeStart rangeEnd intervalSec : Int)
    (outageRows : List OutageRow) (checkRows : List CheckRow)
    (hrange : rangeStart < rangeEnd) :
    (runDailyRollupRow rangeStart rangeEnd intervalSec outageRows checkRows).uptime_sec
      + (runDailyRollupRow rangeStart rangeEnd intervalSec outageRows checkRows).downtime_sec
      + (runDailyRollupRow rangeStart rangeEnd intervalSec outageRows checkRows).unknown_sec
      ≤ (runDailyRollupRow rangeStart rangeEnd intervalSec outageRows checkRows).total_sec
    ∧ (runDailyRollupRow rangeStart rangeEnd intervalSec outageRows checkRows).checks_up
      + (runDailyRollupRow rangeStart rangeEnd intervalSec outageRows checkRows).checks_down
      + (runDailyRollupRow rangeStart rangeEnd intervalSec outageRows checkRows).checks_unknown
      + (runDailyRollupRow rangeStart rangeEnd intervalSec outageRows checkRows).checks_maintenance
      = (runDailyRollupRow rangeStart rangeEnd intervalSec outageRows checkRows).checks_total := by
  constructor
  · unfold runDailyRollupRow
    simp only
    have hclip_pos : Pos ((outageRows.map (fun r =>
        Interval.mk (max r.started_at rangeStart)
          (min (r.ended_at.getD rangeEnd) rangeEnd))).filter
      (fun it => decide (it.start < it.stop))) := by
      intro it hit
      have := (List.mem_filter.mp hit).2
      simpa using this
    have hclip_bnd : Bnds rangeStart rangeEnd ((outageRows.map (fun r =>
        Interval.mk (max r.started_at rangeStart)
          (min (r.ended_at.getD rangeEnd) rangeEnd))).filter
      (fun it => decide (it.start < it.stop))) := by
      intro it hit
      rcases List.mem_map.mp (List.mem_filter.mp hit).1 with ⟨r, _, rfl⟩
      constructor
      · exact le_max_right _ _
      · exact min_le_right _ _
    have hUinv := buildUnknownIntervals_inv rangeStart rangeEnd intervalSec
      (checkRows.map
        (fun r => UptimeCheck.mk r.checked_at (Rollup.toCheckStatus (some r.status))))
    have key := downtime_add_unknown_le hUinv.1 hUinv.2.1 hUinv.2.2
      (mergeIntervals_chain'_sep _) (mergeIntervals_pos hclip_pos)
      (mergeIntervals_bnds hclip_bnd) (le_of_lt hrange)
    have hDnon := sumIntervals_nonneg (mergeIntervals
      ((outageRows.map (fun r =>
          Interval.mk (max r.started_at rangeStart)
            (min (r.ended_at.getD rangeEnd) rangeEnd))).filter
        (fun it => decide (it.start < it.stop))))
    omega
  · rfl

/-! ### Scheduler persistence (`persistCheckAndState`, scheduler/scheduled.ts)

The `outages` table is modelled as a list of rows; the three conditional
outage statements of the persistence batch are modelled as a function on
that list. -/

/-- A row of the `outages` table. -/
structure OutageDbRow where
  monitor_id : Int
  started_at : Int
  ended_at : Option Int
  initial_error : Option String
  last_error : Option String
  deriving Repr, DecidableEq

/-- `monitor_id = ? AND ended_at IS NULL`: the guard shared by the three
outage statements. -/
def isOngoingFor (monitorId : Int) (r : OutageDbRow) : Bool :=
  r.monitor_id == monitorId && r.ended_at == none

/-- The outage statements of `persistCheckAndState` applied to the
`outages` table:
* `open` inserts a fresh ongoing row guarded by
  `NOT EXISTS (ongoing outage for this monitor)`;
* `close` sets `ended_at` on the ongoing rows of the monitor;
* `update` (with a truthy `checkError`) rewrites `last_error` on them;
* any other action leaves the table unchanged. -/
def applyOutageStatements (db : List OutageDbRow) (monitorId checkedAt : Int)
    (outageAction : String) (checkError : Option String) : List OutageDbRow :=
  if outageAction = "open" then
    if db.any (isOngoingFor monitorId) then db
    else db ++ [⟨monitorId, checkedAt, none,
      some (checkError.getD "down"), some (checkError.getD "down")⟩]
  else if outageAction = "close" then
    db.map (fun r =>
      if isOngoingFor monitorId r then { r with ended_at := some checkedAt } else r)
  else if outageAction = "update" ∧ checkError ≠ none ∧ checkError ≠ some "" then
    db.map (fun r =>
      if isOngoingFor monitorId r then { r with last_error := checkError } else r)
  else db

/-- The number of ongoing (`ended_at IS NULL`) outage rows of one monitor. -/
def ongoingCount (monitorId : Int) (db : List OutageDbRow) : Nat :=
  db.countP (isOngoingFor monitorId)

/-- One persisted check batch, as far as the `outages` table is concerned:
the monitor, the bucketed check time, the outage action computed by the
state machine, and the check error. -/
structure OutageBatch where
  monitorId : Int
  checkedAt : Int
  outageAction : String
  checkError : Option String
  deriving Repr, DecidableEq

/-- Apply the outage statements of one batch. -/
def applyBatch (db : List OutageDbRow) (b : OutageBatch) : List OutageDbRow :=
  applyOutageStatements db b.monitorId b.checkedAt b.outageAction b.checkError

theorem ongoingCount_applyBatch_le {db : List OutageDbRow} (b : OutageBatch)
    (m : Int) (h : ongoingCount m db ≤ 1) :
    ongoingCount m (applyBatch db b) ≤ 1 := by
  unfold applyBatch applyOutageStatements
  split
  · split
    · exact h
    · rename_i hno
      unfold ongoingCount at *
      rw [List.countP_append]
      by_cases hm : m = b.monitorId
      · have hzero : db.countP (isOngoingFor m) = 0 := by
          rw [List.countP_eq_zero]
          intro r hr
          have h2 := (List.any_eq_false.mp (by simpa using hno)) r hr
          rw [hm]
          exact h2
        have hsingle : List.countP (isOngoingFor m)
            [OutageDbRow.mk b.monitorId b.checkedAt none
              (some (b.checkError.getD "down")) (some (b.checkError.getD "down"))] ≤ 1 := by
          rw [List.countP_cons, List.countP_nil]
          split <;> omega
        omega
      · have hsingle : List.countP (isOngoingFor m)
            [OutageDbRow.mk b.monitorId b.checkedAt none
              (some (b.checkError.getD "down")) (some (b.checkError.getD "down"))] = 0 := by
          rw [List.countP_cons, List.countP_nil]
          have : isOngoingFor m (OutageDbRow.mk b.monitorId b.checkedAt none
              (some (b.checkError.getD "down")) (some (b.checkError.getD "down"))) = false := by
            simp [isOngoingFor]
            intro habs
            exact absurd habs.symm hm
          simp [this]
        omega
  · split
    · unfold ongoingCount at *
      rw [List.countP_map]
      refine le_trans (le_trans (List.countP_mono_left ?_) le_rfl) h
      intro r hr hp
      simp only [Function.comp] at hp
      by_cases hb : isOngoingFor b.monitorId r
      · simp only [hb, if_pos] at hp
        simp [isOngoingFor] at hp
      · simpa [hb] using hp
    · split
      · unfold ongoingCount at *
        rw [List.countP_map]
        have : List.countP (isOngoingFor m ∘ fun r =>
            if isOngoingFor b.monitorId r then { r with last_error := b.checkError } else r) db
            = List.countP (isOngoingFor m) db := by
          refine List.countP_congr ?_
          intro r hr
          simp only [Function.comp]
          by_cases hb : isOngoingFor b.monitorId r
          · have hb' : r.monitor_id = b.monitorId ∧ r.ended_at = none := by
              simpa [isOngoingFor] using hb
            simp [isOngoingFor, hb'.1, hb'.2]
          · simp [hb]
        omega
      · exact h

/-- C1: starting from an empty `outages` table, any sequence of persisted
check batches leaves at most one ongoing outage row per monitor, because
the `open` statement is guarded by `NOT EXISTS (ongoing outage)`. -/
theorem persistCheckAndState_ongoing_le_one (batches : List OutageBatch) (m : Int) :
    ongoingCount m (batches.foldl applyBatch []) ≤ 1 := by
  have : ∀ (bs : List OutageBatch) (db : List OutageDbRow),
      ongoingCount m db ≤ 1 → ongoingCount m (bs.foldl applyBatch db) ≤ 1 := by
    intro bs
    induction bs with
    | nil => intro db h; exact h
    | cons b rest ih =>
      intro db h
      exact ih _ (ongoingCount_applyBatch_le b m h)
  exact this batches [] (by simp [ongoingCount])

/-! ### Public status builder (`computePublicStatusPayload`, public/status.ts) -/

namespace PublicStatus

/-- `toMonitorStatus` (public/status.ts): closed-domain coercion with
default `'unknown'`.  The argument is the possibly-null `state_status`
column. -/
def toMonitorStatus (value : Option String) : String :=
  match value with
  | some "up" => "up"
  | some "down" => "down"
  | some "maintenance" => "maintenance"
  | some "paused" => "paused"
  | some "unknown" => "unknown"
  | _ => "unknown"

/-- `toCheckStatus` (public/status.ts): closed-domain coercion with default
`'unknown'`. -/
def toCheckStatus (value : Option String) : String :=
  match value with
  | some "up" => "up"
  | some "down" => "down"
  | some "maintenance" => "maintenance"
  | some "unknown" => "unknown"
  | _ => "unknown"

/-- `toIncidentStatus` (public/status.ts, duplicated in the public
incidents route): closed-domain coercion with default `'investigating'`. -/
def toIncidentStatus (value : Option String) : String :=
  match value with
  | some "investigating" => "investigating"
  | some "identified" => "identified"
  | some "monitoring" => "monitoring"
  | some "resolved" => "resolved"
  | _ => "investigating"

/-- `toIncidentImpact` (public/status.ts, duplicated in the public
incidents route): closed-domain coercion with default `'minor'`. -/
def toIncidentImpact (value : Option String) : String :=
  match value with
  | some "none" => "none"
  | some "minor" => "minor"
  | some "major" => "major"
  | some "critical" => "critical"
  | _ => "minor"

end PublicStatus

/-- A monitor row joined with its state, as fetched by
`computePublicStatusPayload`. -/
structure PublicStatusMonitorRow where
  id : Int
  name : String
  type : String
  interval_sec : Int
  state_status : Option String
  last_checked_at : Option Int
  last_latency_ms : Option Int
  deriving Repr, DecidableEq

/-- A maintenance window together with its linked monitor ids
(`maintenance_windows` joined with `maintenance_window_monitors`). -/
structure MaintenanceWindowDb where
  starts_at : Int
  ends_at : Int
  monitor_ids : List Int
  deriving Repr, DecidableEq

/-- `listActiveMaintenanceMonitorIds`: a monitor id is in the active set at
`at_` iff some window with `starts_at ≤ at_ < ends_at` links it. -/
def activeMaintenanceAt (windows : List MaintenanceWindowDb) (at_ : Int)
    (monitorId : Int) : Bool :=
  windows.any (fun w =>
    decide (w.starts_at ≤ at_) && decide (at_ < w.ends_at) &&
      w.monitor_ids.contains monitorId)

/-- One element of `PublicStatusResponse.monitors` (without heartbeats,
which are attached later and do not affect the status field). -/
structure PublicMonitorEntry where
  id : Int
  name : String
  type : String
  status : String
  is_stale : Bool
  last_checked_at : Option Int
  last_latency_ms : Option Int
  deriving Repr, DecidableEq

/-- The per-monitor mapping of `computePublicStatusPayload`: staleness is
suppressed for maintenance/paused monitors, maintenance wins the displayed
status, staleness degrades it to `'unknown'`, and a stale latency is
hidden. -/
def monitorEntry (now : Int) (isInMaintenance : Bool)
    (r : PublicStatusMonitorRow) : PublicMonitorEntry :=
  let stateStatus := PublicStatus.toMonitorStatus r.state_status
  let isStale :=
    if isInMaintenance || stateStatus == "paused" || stateStatus == "maintenance" then false
    else match r.last_checked_at with
      | none => true
      | some t => decide (r.interval_sec * 2 < now - t)
  let status := if isInMaintenance then "maintenance"
    else if isStale then "unknown" else stateStatus
  { id := r.id
    name := r.name
    type := if r.type == "tcp" then "tcp" else "http"
    status := status
    is_stale := isStale
    last_checked_at := r.last_checked_at
    last_latency_ms := if isStale then none else r.last_latency_ms }

/-- The `monitors` list of the public payload. -/
def computePublicStatusMonitors (now : Int) (windows : List MaintenanceWindowDb)
    (rows : List PublicStatusMonitorRow) : List PublicMonitorEntry :=
  rows.map (fun r => monitorEntry now (activeMaintenanceAt windows now r.id) r)

/-! ### Scheduler: probe outcome handling and notification decision
(`runDueMonitor`, scheduler/scheduled.ts) -/

/-- A probe result (`CheckOutcome`, monitor/types.ts). -/
structure CheckOutcome where
  status : String
  latencyMs : Option Int
  httpStatus : Option Int
  error : Option String
  attempts : Int
  deriving Repr, DecidableEq

namespace Scheduled

/-- `toMonitorStatus` (scheduler/scheduled.ts): closed-domain coercion
returning `null` outside the domain. -/
def toMonitorStatus (value : Option String) : Option String :=
  match value with
  | some "up" => some "up"
  | some "down" => some "down"
  | some "maintenance" => some "maintenance"
  | some "paused" => some "paused"
  | some "unknown" => some "unknown"
  | _ => none

end Scheduled

/-- The previous per-monitor state handed to the state machine
(`MonitorStateSnapshot`, monitor/state-machine.ts). -/
structure MonitorStateSnapshot where
  status : String
  lastChangedAt : Option Int
  consecutiveFailures : Int
  consecutiveSuccesses : Int
  deriving Repr, DecidableEq

/-- The next state computed by the state machine. -/
structure NextState where
  status : String
  changed : Bool
  lastChangedAt : Option Int
  consecutiveFailures : Int
  consecutiveSuccesses : Int
  deriving Repr, DecidableEq

/-- Modelled from the spec: `computeNextState`
(monitor/state-machine.ts is not part of the provided sources; §4.3 of the
specification gives its rules with the flap thresholds `F = S = 1`).
* `down` outcome: failures increment; from a previous `down` the state
  stays `down` unchanged with outage action `update`; from `up`, `unknown`
  or no previous row (the spec leaves `maintenance`/`paused` previous
  states unlisted; they are folded into this rule) it transitions to
  `down`, `changed`, action `open`.
* `up` outcome: successes increment; from `down` it transitions to `up`,
  `changed`, action `close`; otherwise `up` with `changed = (prev ≠ up)`
  and no action.
* `unknown` outcome (configuration error): state `unknown`,
  `changed = (prev ≠ unknown)`, no action; counters carried forward.
`last_changed_at` updates exactly when `changed`. -/
def computeNextState (prev : Option MonitorStateSnapshot) (outcome : CheckOutcome)
    (checkedAt : Int) : NextState × String :=
  let prevStatus := prev.map (fun p => p.status)
  let prevChangedAt := prev.bind (fun p => p.lastChangedAt)
  if outcome.status = "down" then
    let cf := (prev.map (fun p => p.consecutiveFailures)).getD 0 + 1
    if prevStatus = some "down" then
      (⟨"down", false, prevChangedAt, cf, 0⟩, "update")
    else
      (⟨"down", true, some checkedAt, cf, 0⟩, "open")
  else if outcome.status = "up" then
    let cs := (prev.map (fun p => p.consecutiveSuccesses)).getD 0 + 1
    if prevStatus = some "down" then
      (⟨"up", true, some checkedAt, 0, cs⟩, "close")
    else
      let changed := prevStatus ≠ some "up"
      (⟨"up", changed, if changed then some checkedAt else prevChangedAt, 0, cs⟩, "none")
  else
    let changed := prevStatus ≠ some "unknown"
    (⟨"unknown", changed, if changed then some checkedAt else prevChangedAt,
      (prev.map (fun p => p.consecutiveFailures)).getD 0,
      (prev.map (fun p => p.consecutiveSuccesses)).getD 0⟩, "none")

/-- `computeStateLastError` (scheduler/scheduled.ts): keep the previous
error on a `down` state observed `up`, otherwise take the outcome error;
clear it on an `up` observation. -/
def computeStateLastError (nextStatus : String) (outcome : CheckOutcome)
    (prevLastError : Option String) : Option String :=
  if nextStatus = "down" then
    if outcome.status = "up" then prevLastError else outcome.error
  else if nextStatus = "up" then
    if outcome.status = "up" then none else outcome.error
  else
    if outcome.status = "up" then none else outcome.error

/-- The row shape consumed by `runDueMonitor` (state columns of the due
monitor). -/
structure DueMonitorRow where
  id : Int
  name : String
  type : String
  target : String
  state_status : Option String
  state_last_error : Option String
  last_changed_at : Option Int
  consecutive_failures : Option Int
  consecutive_successes : Option Int
  deriving Repr, DecidableEq

/-- The arguments `runDueMonitor` passes to `persistCheckAndState`. -/
structure PersistArgs where
  monitorId : Int
  checkedAt : Int
  outcome : CheckOutcome
  nextStatus : String
  nextLastChangedAt : Option Int
  nextConsecutiveFailures : Int
  nextConsecutiveSuccesses : Int
  outageAction : String
  stateLastError : Option String
  deriving Repr, DecidableEq

/-- The notification decision at the end of `runDueMonitor` (lines
376-394): nothing is dispatched without active channels, under maintenance
suppression, or without a state change; otherwise the event type is derived
from `prevStatus ?? 'unknown'` and the next status, and the event key is
`monitor:<id>:<down|up>:<checkedAt>`.  Returns the `(event, event_key)`
pair handed to `dispatchWebhookToChannels`. -/
def notifyDecision (hasNotify maintenanceSuppressed changed : Bool)
    (prevStatus : Option String) (nextStatus : String)
    (monitorId checkedAt : Int) : Option (String × String) :=
  if !hasNotify || maintenanceSuppressed || !changed then none
  else
    let prevForEvent := prevStatus.getD "unknown"
    let eventType : Option String :=
      if (prevForEvent = "up" ∨ prevForEvent = "unknown") ∧ nextStatus = "down" then
        some "monitor.down"
      else if prevForEvent = "down" ∧ nextStatus = "up" then
        some "monitor.up"
      else none
    match eventType with
    | none => none
    | some et =>
      let suffix := if et = "monitor.down" then "down" else "up"
      some (et, "monitor:" ++ toString monitorId ++ ":" ++ suffix ++ ":" ++ toString checkedAt)

/-- `runDueMonitor` after the probe: compute the next state, always build
the persistence batch, and decide the webhook dispatch. -/
def runDueMonitorModel (row : DueMonitorRow) (checkedAt : Int)
    (outcome : CheckOutcome) (hasNotify maintenanceSuppressed : Bool) :
    PersistArgs × Option (String × String) :=
  let prevStatus := Scheduled.toMonitorStatus row.state_status
  let prev : Option MonitorStateSnapshot := prevStatus.map (fun st =>
    ⟨st, row.last_changed_at, (row.consecutive_failures).getD 0,
      (row.consecutive_successes).getD 0⟩)
  let result := computeNextState prev outcome checkedAt
  let next := result.1
  let outageAction := result.2
  let stateLastError := computeStateLastError next.status outcome row.state_last_error
  (⟨row.id, checkedAt, outcome, next.status, next.lastChangedAt,
      next.consecutiveFailures, next.consecutiveSuccesses, outageAction, stateLastError⟩,
    notifyDecision hasNotify maintenanceSuppressed next.changed prevStatus next.status
      row.id checkedAt)

/-! ### Snapshot cache headers (`applyStatusCacheHeaders`,
snapshots/public-status.ts) -/

/-- `MAX_AGE_SECONDS` of the snapshot store. -/
def MAX_AGE_SECONDS : Int := 60

/-- The `max-age` value of `applyStatusCacheHeaders`. -/
def cacheControlMaxAge (ageSeconds : Int) : Int :=
  min 30 (max 0 (MAX_AGE_SECONDS - ageSeconds))

/-- The `stale-while-revalidate` / `stale-if-error` value of
`applyStatusCacheHeaders`. -/
def cacheControlStale (ageSeconds : Int) : Int :=
  max 0 (max 0 (MAX_AGE_SECONDS - ageSeconds) - cacheControlMaxAge ageSeconds)

/-- The `Cache-Control` header set by `applyStatusCacheHeaders`. -/
def applyStatusCacheHeaders (ageSeconds : Int) : String :=
  "public, max-age=" ++ toString (cacheControlMaxAge ageSeconds)
    ++ ", stale-while-revalidate=" ++ toString (cacheControlStale ageSeconds)
    ++ ", stale-if-error=" ++ toString (cacheControlStale ageSeconds)

/-! ### Monitor target validation (schemas/monitors.ts)

The host-language string builtins used by the validators
(`toLowerCase`, `split`, `startsWith`, `includes`, `trim`,
digit-matching and `Number` on digit strings) are modelled as structurally
recursive functions on the character list of a `String`. -/

namespace Validate

/-- ASCII lower-casing of one character (`toLowerCase` on hostnames). -/
def lowerChar (c : Char) : Char :=
  if 'A' ≤ c ∧ c ≤ 'Z' then Char.ofNat (c.toNat + 32) else c

/-- `host.toLowerCase()` as a character list. -/
def toLowerChars (s : String) : List Char := s.data.map lowerChar

/-- `/^[0-9]+$/` on one character. -/
def isDigitChar (c : Char) : Bool := '0' ≤ c && c ≤ '9'

/-- `Number(p)` on an all-digit string: its decimal value. -/
def parseDecimal (cs : List Char) : Nat :=
  cs.foldl (fun acc c => acc * 10 + (c.toNat - '0'.toNat)) 0

/-- `host.split(sep)`. -/
def splitOnSep (sep : Char) : List Char → List (List Char)
  | [] => [[]]
  | c :: rest =>
    match splitOnSep sep rest with
    | [] => [[c]]
    | cur :: others => if c = sep then [] :: cur :: others else (c :: cur) :: others

/-- `s.startsWith(pre)`. -/
def startsWithChars : List Char → List Char → Bool
  | _, [] => true
  | [], _ :: _ => false
  | c :: cs, p :: ps => c == p && startsWithChars cs ps

/-- `s.trim()` (ASCII whitespace). -/
def trimChars (cs : List Char) : List Char :=
  ((cs.dropWhile Char.isWhitespace).reverse.dropWhile Char.isWhitespace).reverse

/-- `isValidPort`: `Number.isInteger(n) && n >= 1 && n <= 65535` (ports are
modelled as integers). -/
def isValidPort (n : Int) : Bool := decide (1 ≤ n) && decide (n ≤ 65535)

/-- `isAllowedPort`: `80`, `443`, or `[1024, 65535]`. -/
def isAllowedPort (n : Int) : Bool :=
  n == 80 || n == 443 || (decide (1024 ≤ n) && decide (n ≤ 65535))

/-- `isIpv4Literal`: four dot-separated non-empty all-digit parts, each at
most 255. -/
def isIpv4Literal (host : String) : Bool :=
  let parts := splitOnSep '.' host.data
  parts.length == 4 && parts.all (fun p =>
    decide (0 < p.length) && p.all isDigitChar && decide (parseDecimal p ≤ 255))

/-- `ipv4ToInt`: `((a << 24) | (b << 16) | (c << 8) | d) >>> 0`.  The
source throws on a malformed literal; the function is only ever applied
under the `isIpv4Literal` guard, and the unreachable branch returns 0. -/
def ipv4ToInt (host : String) : Nat :=
  match splitOnSep '.' host.data with
  | [a, b, c, d] =>
    (parseDecimal a <<< 24) ||| (parseDecimal b <<< 16) ||| (parseDecimal c <<< 8)
      ||| parseDecimal d
  | _ => 0

/-- `ipv4InCidr`: mask comparison with
`mask = maskBits === 0 ? 0 : (0xffffffff << (32 - maskBits)) >>> 0`. -/
def ipv4InCidr (ip : Nat) (base : String) (maskBits : Nat) : Bool :=
  let baseInt := ipv4ToInt base
  let mask := if maskBits == 0 then 0 else (0xffffffff <<< (32 - maskBits)) % 2 ^ 32
  (ip &&& mask) == (baseInt &&& mask)

/-- `isBlockedIpLiteral`: the literal IPv6 checks, the `fe80:`/`fc`/`fd`
prefix checks for colon-bearing literals, then the IPv4 CIDR checks. -/
def isBlockedIpLiteral (host : String) : Bool :=
  let lower := toLowerChars host
  if lower == "::1".data || lower == "::".data then true
  else if lower == "0:0:0:0:0:0:0:1".data || lower == "0:0:0:0:0:0:0:0".data then true
  else if lower.contains ':' &&
      (startsWithChars lower "fe80:".data || startsWithChars lower "fc".data
        || startsWithChars lower "fd".data) then true
  else if !(isIpv4Literal host) then false
  else
    let ip := ipv4ToInt host
    ipv4InCidr ip "0.0.0.0" 8 || ipv4InCidr ip "10.0.0.0" 8
      || ipv4InCidr ip "100.64.0.0" 10 || ipv4InCidr ip "127.0.0.0" 8
      || ipv4InCidr ip "169.254.0.0" 16 || ipv4InCidr ip "172.16.0.0" 12
      || ipv4InCidr ip "192.168.0.0" 16 || ipv4InCidr ip "192.0.2.0" 24
      || ipv4InCidr ip "198.18.0.0" 15 || ipv4InCidr ip "224.0.0.0" 4
      || ipv4InCidr ip "240.0.0.0" 4

/-- `parseTcpTarget`: `host:port`, or bracketed IPv6 `[addr]:port`.  The
port is parsed for the all-digit forms; every other `Number` result is
rejected by the `isValidPort` gate. -/
def parsePortDigits (cs : List Char) : Option Int :=
  if 0 < cs.length ∧ cs.all isDigitChar then some (parseDecimal cs) else none

/-- `parseTcpTarget` (schemas/monitors.ts). -/
def parseTcpTarget (target : String) : Option (String × Int) :=
  let trimmed := trimChars target.data
  match trimmed with
  | [] => none
  | '[' :: rest =>
    if rest.contains ']' then
      let host := rest.takeWhile (fun c => !(c == ']'))
      let afterBracket := (rest.dropWhile (fun c => !(c == ']'))).drop 1
      match afterBracket with
      | ':' :: portStr =>
        match parsePortDigits portStr with
        | some port => if isValidPort port then some (String.mk host, port) else none
        | none => none
      | _ => none
    else none
  | _ =>
    let rev := trimmed.reverse
    if rev.contains ':' then
      let portStr := (rev.takeWhile (fun c => !(c == ':'))).reverse
      let host := ((rev.dropWhile (fun c => !(c == ':'))).drop 1).reverse
      if host.length == 0 then none
      else
        match parsePortDigits portStr with
        | some port => if isValidPort port then some (String.mk host, port) else none
        | none => none
    else none

/-- `validateTcpTarget`: parse, then gate the trimmed host against
`localhost` and `isBlockedIpLiteral`, and the port against
`isAllowedPort`; `none` means the target is accepted. -/
def validateTcpTarget (target : String) : Option String :=
  match parseTcpTarget target with
  | none => some "target must be in host:port format (IPv6: [addr]:port)"
  | some (h, port) =>
    let host := String.mk (trimChars h.data)
    if host.data.length == 0 then some "target host is required"
    else if toLowerChars host == "localhost".data then some "target host is not allowed"
    else if isBlockedIpLiteral host then some "target host is not allowed"
    else if !(isAllowedPort port) then some "target port is not allowed"
    else none

/-- The IPv4 blocked set as written in the specification, expressed
arithmetically on the 32-bit address value: `0.0.0.0/8`, `10/8`,
`100.64/10`, `127/8`, `169.254/16`, `172.16/12`, `192.168/16`,
`192.0.2/24`, `198.18/15`, `224/4`, `240/4`.  Membership of `n` in a
`/k` block with base `b` is `n / 2^(32-k) = b / 2^(32-k)`. -/
def specBlockedIpv4 (n : Nat) : Prop :=
  n / 2 ^ 24 = 0 ∨ n / 2 ^ 24 = 10 ∨ n / 2 ^ 22 = 401 ∨ n / 2 ^ 24 = 127 ∨
  n / 2 ^ 16 = 43518 ∨ n / 2 ^ 20 = 2753 ∨ n / 2 ^ 16 = 49320 ∨
  n / 2 ^ 8 = 12582914 ∨ n / 2 ^ 17 = 25353 ∨ n / 2 ^ 28 = 14 ∨ n / 2 ^ 28 = 15

instance (n : Nat) : Decidable (specBlockedIpv4 n) := by
  unfold specBlockedIpv4
  infer_instance

theorem land_mask (x s t : Nat) :
    x &&& ((2 ^ t - 1) <<< s) = ((x >>> s) % 2 ^ t) <<< s := by
  apply Nat.eq_of_testBit_eq
  intro i
  rw [Nat.testBit_land, Nat.testBit_shiftLeft, Nat.testBit_shiftLeft,
    Nat.testBit_two_pow_sub_one, Nat.testBit_mod_two_pow, Nat.testBit_shiftRight]
  rcases le_or_lt s i with h1 | h1
  · have hadd : s + (i - s) = i := by omega
    rw [hadd]
    have : (decide (i ≥ s)) = true := by simpa using h1
    rw [this]
    cases (x.testBit i) <;> cases (decide (i - s < t)) <;> simp
  · have : (decide (i ≥ s)) = false := by simpa using h1
    rw [this]
    simp

theorem mask_eq (s k : Nat) (h : s + k = 32) :
    ((0xffffffff <<< s) % 2 ^ 32) = (2 ^ k - 1) <<< s := by
  have h1 : (1 : Nat) ≤ 2 ^ s := Nat.one_le_two_pow
  have h2 : (2 : Nat) ^ s ≤ 2 ^ 32 := Nat.pow_le_pow_right (by norm_num) (by omega)
  have h3 : (2 : Nat) ^ s ≤ 2 ^ 32 * 2 ^ s := Nat.le_mul_of_pos_left _ (by positivity)
  have hnum : (0xffffffff : Nat) = 2 ^ 32 - 1 := by norm_num
  rw [hnum, Nat.shiftLeft_eq, Nat.shiftLeft_eq, Nat.sub_mul, one_mul]
  have hks : (2 : Nat) ^ k * 2 ^ s = 2 ^ 32 := by
    rw [← pow_add]
    congr 1
    omega
  have key : 2 ^ 32 * 2 ^ s - 2 ^ s = 2 ^ 32 * (2 ^ s - 1) + (2 ^ 32 - 2 ^ s) := by
    zify [h1, h2, h3]
    ring
  rw [key, Nat.mul_add_mod, Nat.mod_eq_of_lt (by omega), Nat.sub_mul, one_mul, hks]

theorem ipv4InCidr_iff {ip : Nat} (hip : ip < 2 ^ 32) (base : String) (k : Nat)
    (hk : 0 < k) (hk32 : k ≤ 32) :
    Validate.ipv4InCidr ip base k = true ↔
      ip / 2 ^ (32 - k) = Validate.ipv4ToInt base / 2 ^ (32 - k) % 2 ^ k := by
  unfold Validate.ipv4InCidr
  have hkne : (k == 0) = false := by simp; omega
  simp only [hkne, Bool.false_eq_true, if_false]
  rw [mask_eq (32 - k) k (by omega), land_mask, land_mask, beq_iff_eq,
    Nat.shiftLeft_eq, Nat.shiftLeft_eq, Nat.shiftRight_eq_div_pow,
    Nat.shiftRight_eq_div_pow]
  have hdivlt : ip / 2 ^ (32 - k) < 2 ^ k := by
    rw [Nat.div_lt_iff_lt_mul (by positivity), ← pow_add]
    have : k + (32 - k) = 32 := by omega
    rw [this]
    exact hip
  rw [Nat.mod_eq_of_lt hdivlt]
  constructor
  · intro heq
    exact Nat.eq_of_mul_eq_mul_right (by positivity) heq
  · intro heq
    rw [heq]

theorem ipv4InCidr_of_div {ip : Nat} (hip : ip < 2 ^ 32) (base : String) (k q : Nat)
    (hk : 0 < k) (hk32 : k ≤ 32)
    (hbase : Validate.ipv4ToInt base / 2 ^ (32 - k) % 2 ^ k = q)
    (h : ip / 2 ^ (32 - k) = q) : Validate.ipv4InCidr ip base k = true := by
  rw [ipv4InCidr_iff hip base k hk hk32, hbase]
  exact h

theorem length_eq_four_exists {α : Type} {l : List α} (h : l.length = 4) :
    ∃ a b c d, l = [a, b, c, d] := by
  rcases l with _ | ⟨a, l⟩
  · simp at h
  rcases l with _ | ⟨b, l⟩
  · simp at h
  rcases l with _ | ⟨c, l⟩
  · simp at h
  rcases l with _ | ⟨d, l⟩
  · simp at h
  rcases l with _ | ⟨e, l⟩
  · exact ⟨a, b, c, d, rfl⟩
  · simp at h

theorem ipv4ToInt_lt {host : String} (h : Validate.isIpv4Literal host = true) :
    Validate.ipv4ToInt host < 2 ^ 32 := by
  unfold Validate.isIpv4Literal at h
  simp only [Bool.and_eq_true, List.all_eq_true, beq_iff_eq,
    decide_eq_true_eq] at h
  obtain ⟨hlen, hall⟩ := h
  obtain ⟨a, b, c, d, hm⟩ := length_eq_four_exists hlen
  unfold Validate.ipv4ToInt
  rw [hm]
  rw [hm] at hall
  show Validate.parseDecimal a <<< 24 ||| Validate.parseDecimal b <<< 16
    ||| Validate.parseDecimal c <<< 8 ||| Validate.parseDecimal d < 2 ^ 32
  have ha := (hall a (by simp)).2
  have hb := (hall b (by simp)).2
  have hc := (hall c (by simp)).2
  have hd := (hall d (by simp)).2
  have h24 : Validate.parseDecimal a <<< 24 < 2 ^ 32 := by
    rw [Nat.shiftLeft_eq]
    calc Validate.parseDecimal a * 2 ^ 24 ≤ 255 * 2 ^ 24 :=
          Nat.mul_le_mul_right _ ha
      _ < 2 ^ 32 := by norm_num
  have h16 : Validate.parseDecimal b <<< 16 < 2 ^ 32 := by
    rw [Nat.shiftLeft_eq]
    calc Validate.parseDecimal b * 2 ^ 16 ≤ 255 * 2 ^ 16 :=
          Nat.mul_le_mul_right _ hb
      _ < 2 ^ 32 := by norm_num
  have h8 : Validate.parseDecimal c <<< 8 < 2 ^ 32 := by
    rw [Nat.shiftLeft_eq]
    calc Validate.parseDecimal c * 2 ^ 8 ≤ 255 * 2 ^ 8 :=
          Nat.mul_le_mul_right _ hc
      _ < 2 ^ 32 := by norm_num
  have h0 : Validate.parseDecimal d < 2 ^ 32 := by
    calc Validate.parseDecimal d ≤ 255 := hd
      _ < 2 ^ 32 := by norm_num
  exact Nat.bitwise_lt (Nat.bitwise_lt (Nat.bitwise_lt h24 h16) h8) h0

end Validate

/-! ### Claim theorems -/

/-- C4 counterexample: `mergeIntervals` applied to the single degenerate
pair `{start := 5, end := 3}` returns it unchanged, so the output element
violates `M[i].start < M[i].end`; the claim fails as stated for arbitrary
input lists. -/
theorem mergeIntervals_degenerate_counterexample :
    mergeIntervals [Interval.mk 5 3] = [Interval.mk 5 3] ∧
      ¬((Interval.mk 5 3).start < (Interval.mk 5 3).stop) := by
  constructor
  · unfold mergeIntervals
    rw [List.mergeSort_singleton]
    rfl
  · decide

/-- C4 (amended): for every input list, the output of `mergeIntervals` is
sorted and strictly non-overlapping (`∀ i < j, M[i].end < M[j].start`, as
`List.Pairwise`); and when every input interval is non-empty
(`start < end`), every output element also satisfies `start < end`. -/
theorem mergeIntervals_sorted_disjoint (l : List Interval) :
    List.Pairwise Sep (mergeIntervals l) ∧
      (Pos l → Pos (mergeIntervals l)) :=
  ⟨mergeIntervals_pairwise l, fun h => mergeIntervals_pos h⟩

theorem mergeIntervals_sorted_disjoint_witness :
    List.Pairwise Sep (mergeIntervals [Interval.mk 0 5, Interval.mk 3 10]) ∧
      Pos (mergeIntervals [Interval.mk 0 5, Interval.mk 3 10]) :=
  ⟨(mergeIntervals_sorted_disjoint [Interval.mk 0 5, Interval.mk 3 10]).1,
    (mergeIntervals_sorted_disjoint [Interval.mk 0 5, Interval.mk 3 10]).2
      (show ∀ it ∈ [Interval.mk 0 5, Interval.mk 3 10], it.start < it.stop by decide)⟩

/-- C5: for the day `[0, 86400)` with `intervalSec = 60` and `up` checks at
`t = 0` and `t = 240`, `buildUnknownIntervals` contains the interval
`[120, 240)` (coverage of the `t = 0` check ends at `0 + 2·60`), and the
unknown intervals sum to at least 120 seconds. -/
theorem buildUnknownIntervals_example :
    Interval.mk 120 240 ∈
        buildUnknownIntervals 0 86400 60
          [UptimeCheck.mk 0 "up", UptimeCheck.mk 240 "up"] ∧
      120 ≤ sumIntervals (buildUnknownIntervals 0 86400 60
          [UptimeCheck.mk 0 "up", UptimeCheck.mk 240 "up"]) := by decide

/-- C9 counterexample: `toIncidentStatus` and `toIncidentImpact` coerce the
out-of-domain string `"bogus"` to `'investigating'` and `'minor'`, not to
`'unknown'`; so not every status-string normalization maps out-of-domain
values to `'unknown'`. -/
theorem incidentCoercions_counterexample :
    PublicStatus.toIncidentStatus (some "bogus") = "investigating" ∧
      PublicStatus.toIncidentStatus (some "bogus") ≠ "unknown" ∧
      PublicStatus.toIncidentImpact (some "bogus") = "minor" ∧
      PublicStatus.toIncidentImpact (some "bogus") ≠ "unknown" ∧
      "bogus" ≠ "investigating" ∧ "bogus" ≠ "identified" ∧
      "bogus" ≠ "monitoring" ∧ "bogus" ≠ "resolved" := by decide

/-- C9 (amended): outside their closed domains the payload coercions
return their defaults: `'unknown'` for monitor and check status,
`'investigating'` for incident status, `'minor'` for incident impact. -/
theorem statusCoercions_amended :
    (∀ s : String, s ∉ ["up", "down", "maintenance", "paused", "unknown"] →
      PublicStatus.toMonitorStatus (some s) = "unknown") ∧
    (∀ s : String, s ∉ ["up", "down", "maintenance", "unknown"] →
      PublicStatus.toCheckStatus (some s) = "unknown") ∧
    (∀ s : String, s ∉ ["investigating", "identified", "monitoring", "resolved"] →
      PublicStatus.toIncidentStatus (some s) = "investigating") ∧
    (∀ s : String, s ∉ ["none", "minor", "major", "critical"] →
      PublicStatus.toIncidentImpact (some s) = "minor") := by
  refine ⟨?_, ?_, ?_, ?_⟩
  · intro s h
    simp only [List.mem_cons, List.not_mem_nil, or_false, not_or] at h
    unfold PublicStatus.toMonitorStatus
    split <;> simp_all
  · intro s h
    simp only [List.mem_cons, List.not_mem_nil, or_false, not_or] at h
    unfold PublicStatus.toCheckStatus
    split <;> simp_all
  · intro s h
    simp only [List.mem_cons, List.not_mem_nil, or_false, not_or] at h
    unfold PublicStatus.toIncidentStatus
    split <;> simp_all
  · intro s h
    simp only [List.mem_cons, List.not_mem_nil, or_false, not_or] at h
    unfold PublicStatus.toIncidentImpact
    split <;> simp_all

theorem statusCoercions_amended_witness :
    PublicStatus.toMonitorStatus (some "bogus") = "unknown" ∧
      PublicStatus.toCheckStatus (some "bogus") = "unknown" ∧
      PublicStatus.toIncidentStatus (some "bogus") = "investigating" ∧
      PublicStatus.toIncidentImpact (some "bogus") = "minor" :=
  ⟨statusCoercions_amended.1 "bogus" (by decide),
    statusCoercions_amended.2.1 "bogus" (by decide),
    statusCoercions_amended.2.2.1 "bogus" (by decide),
    statusCoercions_amended.2.2.2 "bogus" (by decide)⟩

/-- C3: every monitor of the public payload whose id is linked by a
maintenance window active at `now` (`starts_at ≤ now < ends_at`) is
reported with status `'maintenance'`; in particular it is never reported
as `'down'`. -/
theorem computePublicStatusMonitors_maintenance_wins :
    ∀ (now : Int) (windows : List MaintenanceWindowDb)
      (rows : List PublicStatusMonitorRow) (m : PublicMonitorEntry),
      m ∈ computePublicStatusMonitors now windows rows →
      (∃ w ∈ windows, w.starts_at ≤ now ∧ now < w.ends_at ∧ m.id ∈ w.monitor_ids) →
      m.status = "maintenance" ∧ m.status ≠ "down" := by
  intro now windows rows m hm hex
  rcases List.mem_map.mp hm with ⟨r, hr, rfl⟩
  have hact : activeMaintenanceAt windows now r.id = true := by
    rcases hex with ⟨w, hw, h1, h2, h3⟩
    unfold activeMaintenanceAt
    rw [List.any_eq_true]
    refine ⟨w, hw, ?_⟩
    simp only [Bool.and_eq_true, decide_eq_true_eq]
    exact ⟨⟨h1, h2⟩, List.elem_eq_true_of_mem h3⟩
  have hst : (monitorEntry now (activeMaintenanceAt windows now r.id) r).status
      = "maintenance" := by
    rw [hact]
    unfold monitorEntry
    simp
  exact ⟨hst, by rw [hst]; decide⟩

theorem computePublicStatusMonitors_maintenance_wins_witness :
    (monitorEntry 150 (activeMaintenanceAt [MaintenanceWindowDb.mk 100 200 [1]] 150 1)
        (PublicStatusMonitorRow.mk 1 "m" "http" 60 (some "down") (some 150) (some 10)))
      ∈ computePublicStatusMonitors 150 [MaintenanceWindowDb.mk 100 200 [1]]
        [PublicStatusMonitorRow.mk 1 "m" "http" 60 (some "down") (some 150) (some 10)] ∧
    (monitorEntry 150 (activeMaintenanceAt [MaintenanceWindowDb.mk 100 200 [1]] 150 1)
        (PublicStatusMonitorRow.mk 1 "m" "http" 60 (some "down") (some 150) (some 10))).status
      = "maintenance" ∧
    (monitorEntry 150 (activeMaintenanceAt [MaintenanceWindowDb.mk 100 200 [1]] 150 1)
        (PublicStatusMonitorRow.mk 1 "m" "http" 60 (some "down") (some 150) (some 10))).status
      ≠ "down" :=
  ⟨by decide,
    (computePublicStatusMonitors_maintenance_wins 150 [MaintenanceWindowDb.mk 100 200 [1]]
      [PublicStatusMonitorRow.mk 1 "m" "http" 60 (some "down") (some 150) (some 10)]
      _ (by decide) (by decide)).1,
    (computePublicStatusMonitors_maintenance_wins 150 [MaintenanceWindowDb.mk 100 200 [1]]
      [PublicStatusMonitorRow.mk 1 "m" "http" 60 (some "down") (some 150) (some 10)]
      _ (by decide) (by decide)).2⟩

/-- C7: for every snapshot age `0 ≤ a ≤ 60` the derived `Cache-Control`
numbers satisfy `max-age = min(30, 60 - a)` and
`stale-while-revalidate = stale-if-error = max(0, (60 - a) - max-age)`, so
`max-age + stale-while-revalidate ≤ 60`; at `a = 5` the header is exactly
`public, max-age=30, stale-while-revalidate=25, stale-if-error=25`. -/
theorem applyStatusCacheHeaders_spec :
    ∀ a : Int, 0 ≤ a → a ≤ 60 →
      cacheControlMaxAge a = min 30 (60 - a) ∧
      cacheControlStale a = max 0 ((60 - a) - cacheControlMaxAge a) ∧
      cacheControlMaxAge a + cacheControlStale a ≤ 60 ∧
      applyStatusCacheHeaders 5
        = "public, max-age=30, stale-while-revalidate=25, stale-if-error=25" := by
  intro a h1 h2
  refine ⟨?_, ?_, ?_, by decide⟩ <;>
    · simp only [cacheControlStale, cacheControlMaxAge, MAX_AGE_SECONDS]
      omega

theorem applyStatusCacheHeaders_spec_witness :
    (0 : Int) ≤ 5 ∧ (5 : Int) ≤ 60 ∧
      (cacheControlMaxAge 5 = min 30 (60 - 5) ∧
        cacheControlStale 5 = max 0 ((60 - 5) - cacheControlMaxAge 5) ∧
        cacheControlMaxAge 5 + cacheControlStale 5 ≤ 60 ∧
        applyStatusCacheHeaders 5
          = "public, max-age=30, stale-while-revalidate=25, stale-if-error=25") :=
  ⟨by decide, by decide, applyStatusCacheHeaders_spec 5 (by decide) (by decide)⟩

/-- C10: when no previous `MonitorState` row exists (`prevStatus` is null)
and the state machine reports a `down` transition with `changed`, the
scheduler's event determination treats the previous status as `'unknown'`
and hands off a `monitor.down` event with key
`monitor:<id>:down:<checkedAt>` (channels present, no maintenance
suppression). -/
theorem notifyDecision_first_check_down (monitorId checkedAt : Int) :
    notifyDecision true false true none "down" monitorId checkedAt
      = some ("monitor.down",
        "monitor:" ++ toString monitorId ++ ":down:" ++ toString checkedAt) := by
  have hfuse : ∀ x y : String, x ++ ":" ++ "down" ++ ":" ++ y = x ++ ":down:" ++ y := by
    intro x y
    apply String.ext
    simp [String.data_append]
  unfold notifyDecision
  norm_num
  exact hfuse ("monitor:" ++ toString monitorId) (toString checkedAt)

theorem runDailyRollupRow_invariants_witness :
    (0 : Int) < 86400 ∧
      ((runDailyRollupRow 0 86400 60 [OutageRow.mk 100 (some 200)]
            [CheckRow.mk 0 "up" (some 10)]).uptime_sec
          + (runDailyRollupRow 0 86400 60 [OutageRow.mk 100 (some 200)]
            [CheckRow.mk 0 "up" (some 10)]).downtime_sec
          + (runDailyRollupRow 0 86400 60 [OutageRow.mk 100 (some 200)]
            [CheckRow.mk 0 "up" (some 10)]).unknown_sec
          ≤ (runDailyRollupRow 0 86400 60 [OutageRow.mk 100 (some 200)]
            [CheckRow.mk 0 "up" (some 10)]).total_sec
        ∧ (runDailyRollupRow 0 86400 60 [OutageRow.mk 100 (some 200)]
            [CheckRow.mk 0 "up" (some 10)]).checks_up
          + (runDailyRollupRow 0 86400 60 [OutageRow.mk 100 (some 200)]
            [CheckRow.mk 0 "up" (some 10)]).checks_down
          + (runDailyRollupRow 0 86400 60 [OutageRow.mk 100 (some 200)]
            [CheckRow.mk 0 "up" (some 10)]).checks_unknown
          + (runDailyRollupRow 0 86400 60 [OutageRow.mk 100 (some 200)]
            [CheckRow.mk 0 "up" (some 10)]).checks_maintenance
          = (runDailyRollupRow 0 86400 60 [OutageRow.mk 100 (some 200)]
            [CheckRow.mk 0 "up" (some 10)]).checks_total) :=
  ⟨by decide, runDailyRollupRow_invariants 0 86400 60 [OutageRow.mk 100 (some 200)]
    [CheckRow.mk 0 "up" (some 10)] (by decide)⟩

/-- C6: maintenance suppression stops the webhook dispatch of
`runDueMonitor` but not its persistence: with `maintenanceSuppressed` the
dispatch is `none`, the arguments handed to `persistCheckAndState` are the
same as without suppression (check row, state upsert and outage action are
still persisted), and a `down` outcome from a non-`down` previous state
still carries the `open` outage action. -/
theorem runDueMonitor_maintenance_suppression :
    ∀ (row : DueMonitorRow) (checkedAt : Int) (outcome : CheckOutcome) (hasNotify : Bool),
      (runDueMonitorModel row checkedAt outcome hasNotify true).2 = none ∧
      (runDueMonitorModel row checkedAt outcome hasNotify true).1
        = (runDueMonitorModel row checkedAt outcome hasNotify false).1 ∧
      (outcome.status = "down" →
        Scheduled.toMonitorStatus row.state_status ≠ some "down" →
        (runDueMonitorModel row checkedAt outcome hasNotify true).1.outageAction
          = "open") := by
  intro row checkedAt outcome hasNotify
  refine ⟨?_, rfl, ?_⟩
  · simp [runDueMonitorModel, notifyDecision]
  · intro hdown hprev
    simp only [runDueMonitorModel]
    unfold computeNextState
    rw [if_pos hdown]
    cases ho : Scheduled.toMonitorStatus row.state_status with
    | none => simp
    | some st =>
      have hne : st ≠ "down" := by
        intro h
        exact hprev (by rw [ho, h])
      simp [hne]

theorem runDueMonitor_maintenance_suppression_witness :
    (runDueMonitorModel
        (DueMonitorRow.mk 1 "m" "http" "http://example.com/" (some "up") none none
          (some 0) (some 0)) 60
        (CheckOutcome.mk "down" none none (some "timeout") 1) true true).2 = none ∧
    (runDueMonitorModel
        (DueMonitorRow.mk 1 "m" "http" "http://example.com/" (some "up") none none
          (some 0) (some 0)) 60
        (CheckOutcome.mk "down" none none (some "timeout") 1) true true).1
      = (runDueMonitorModel
        (DueMonitorRow.mk 1 "m" "http" "http://example.com/" (some "up") none none
          (some 0) (some 0)) 60
        (CheckOutcome.mk "down" none none (some "timeout") 1) true false).1 ∧
    (runDueMonitorModel
        (DueMonitorRow.mk 1 "m" "http" "http://example.com/" (some "up") none none
          (some 0) (some 0)) 60
        (CheckOutcome.mk "down" none none (some "timeout") 1) true true).1.outageAction
      = "open" :=
  ⟨(runDueMonitor_maintenance_suppression
      (DueMonitorRow.mk 1 "m" "http" "http://example.com/" (some "up") none none
        (some 0) (some 0)) 60
      (CheckOutcome.mk "down" none none (some "timeout") 1) true).1,
    (runDueMonitor_maintenance_suppression
      (DueMonitorRow.mk 1 "m" "http" "http://example.com/" (some "up") none none
        (some 0) (some 0)) 60
      (CheckOutcome.mk "down" none none (some "timeout") 1) true).2.1,
    (runDueMonitor_maintenance_suppression
      (DueMonitorRow.mk 1 "m" "http" "http://example.com/" (some "up") none none
        (some 0) (some 0)) 60
      (CheckOutcome.mk "down" none none (some "timeout") 1) true).2.2
      (by decide) (by decide)⟩

/-- C8 counterexample: the literal `fe90::1` lies in `fe80::/10` (its
first hextet `0xfe90` shares the 10-bit prefix of `0xfe80`), yet
`isBlockedIpLiteral` does not block it — the code only checks the textual
prefix `fe80:` — and the create-monitor validation accepts the tcp target
`[fe90::1]:8080`. -/
theorem fe80_range_not_blocked_counterexample :
    (0xfe90 : Nat) / 2 ^ 6 = 0xfe80 / 2 ^ 6 ∧
      Validate.isBlockedIpLiteral "fe90::1" = false ∧
      Validate.validateTcpTarget "[fe90::1]:8080" = none := by decide

/-- C8 (amended): the port gate accepts exactly `80`, `443` and
`[1024, 65535]`; the host gate blocks every IPv4 literal in the blocked
CIDR list; for IPv6 it blocks `::`, `::1`, their full zero forms, and
every colon-bearing literal starting with `fe80:` (a strict subset of
`fe80::/10`) or with `fc`/`fd` (covering `fc00::/7`); and the tcp target
validator rejects any parsed target whose trimmed host is `localhost` or
blocked, or whose port is not allowed. -/
theorem targetValidation_amended :
    (∀ p : Int, Validate.isAllowedPort p = true ↔
      (p = 80 ∨ p = 443 ∨ (1024 ≤ p ∧ p ≤ 65535))) ∧
    (∀ host : String, Validate.isIpv4Literal host = true →
      Validate.specBlockedIpv4 (Validate.ipv4ToInt host) →
      Validate.isBlockedIpLiteral host = true) ∧
    (∀ host : String,
      (Validate.toLowerChars host = "::1".data ∨
        Validate.toLowerChars host = "::".data ∨
        Validate.toLowerChars host = "0:0:0:0:0:0:0:1".data ∨
        Validate.toLowerChars host = "0:0:0:0:0:0:0:0".data ∨
        ((Validate.toLowerChars host).contains ':' = true ∧
          (Validate.startsWithChars (Validate.toLowerChars host) "fe80:".data = true ∨
            Validate.startsWithChars (Validate.toLowerChars host) "fc".data = true ∨
            Validate.startsWithChars (Validate.toLowerChars host) "fd".data = true))) →
      Validate.isBlockedIpLiteral host = true) ∧
    (∀ (t h : String) (p : Int), Validate.parseTcpTarget t = some (h, p) →
      (Validate.toLowerChars (String.mk (Validate.trimChars h.data))
          = "localhost".data ∨
        Validate.isBlockedIpLiteral (String.mk (Validate.trimChars h.data)) = true ∨
        Validate.isAllowedPort p = false) →
      Validate.validateTcpTarget t ≠ none) := by
  refine ⟨?_, ?_, ?_, ?_⟩
  · intro p
    unfold Validate.isAllowedPort
    simp only [Bool.or_eq_true, beq_iff_eq, Bool.and_eq_true, decide_eq_true_eq]
    tauto
  · intro host hlit hspec
    have hip := Validate.ipv4ToInt_lt hlit
    by_cases hc1 : (Validate.toLowerChars host == "::1".data
        || Validate.toLowerChars host == "::".data) = true
    · simp [Validate.isBlockedIpLiteral, hc1]
    by_cases hc2 : (Validate.toLowerChars host == "0:0:0:0:0:0:0:1".data
        || Validate.toLowerChars host == "0:0:0:0:0:0:0:0".data) = true
    · simp [Validate.isBlockedIpLiteral, hc1, hc2]
    by_cases hc3 : ((Validate.toLowerChars host).contains ':'
        && (Validate.startsWithChars (Validate.toLowerChars host) "fe80:".data
          || Validate.startsWithChars (Validate.toLowerChars host) "fc".data
          || Validate.startsWithChars (Validate.toLowerChars host) "fd".data)) = true
    · simp only [Bool.and_eq_true, Bool.or_eq_true] at hc3
      obtain ⟨hmem, hb⟩ := hc3
      have hmem' : ':' ∈ Validate.toLowerChars host := List.mem_of_elem_eq_true hmem
      rcases hb with (hb | hb) | hb <;>
        simp [Validate.isBlockedIpLiteral, hc1, hc2, hmem', hb]
    simp only [Validate.isBlockedIpLiteral, hc1, hc2, hc3, hlit, Bool.not_true,
      Bool.false_eq_true, if_false, Bool.or_eq_true]
    rcases hspec with h|h|h|h|h|h|h|h|h|h|h
    · have hc := Validate.ipv4InCidr_of_div hip "0.0.0.0" 8 0
        (by norm_num) (by norm_num) (by decide) h
      simp [hc]
    · have hc := Validate.ipv4InCidr_of_div hip "10.0.0.0" 8 10
        (by norm_num) (by norm_num) (by decide) h
      simp [hc]
    · have hc := Validate.ipv4InCidr_of_div hip "100.64.0.0" 10 401
        (by norm_num) (by norm_num) (by decide) h
      simp [hc]
    · have hc := Validate.ipv4InCidr_of_div hip "127.0.0.0" 8 127
        (by norm_num) (by norm_num) (by decide) h
      simp [hc]
    · have hc := Validate.ipv4InCidr_of_div hip "169.254.0.0" 16 43518
        (by norm_num) (by norm_num) (by decide) h
      simp [hc]
    · have hc := Validate.ipv4InCidr_of_div hip "172.16.0.0" 12 2753
        (by norm_num) (by norm_num) (by decide) h
      simp [hc]
    · have hc := Validate.ipv4InCidr_of_div hip "192.168.0.0" 16 49320
        (by norm_num) (by norm_num) (by decide) h
      simp [hc]
    · have hc := Validate.ipv4InCidr_of_div hip "192.0.2.0" 24 12582914
        (by norm_num) (by norm_num) (by decide) h
      simp [hc]
    · have hc := Validate.ipv4InCidr_of_div hip "198.18.0.0" 15 25353
        (by norm_num) (by norm_num) (by decide) h
      simp [hc]
    · have hc := Validate.ipv4InCidr_of_div hip "224.0.0.0" 4 14
        (by norm_num) (by norm_num) (by decide) h
      simp [hc]
    · have hc := Validate.ipv4InCidr_of_div hip "240.0.0.0" 4 15
        (by norm_num) (by norm_num) (by decide) h
      simp [hc]
  · intro host hcond
    by_cases hc1 : (Validate.toLowerChars host == "::1".data
        || Validate.toLowerChars host == "::".data) = true
    · simp [Validate.isBlockedIpLiteral, hc1]
    by_cases hc2 : (Validate.toLowerChars host == "0:0:0:0:0:0:0:1".data
        || Validate.toLowerChars host == "0:0:0:0:0:0:0:0".data) = true
    · simp [Validate.isBlockedIpLiteral, hc1, hc2]
    rcases hcond with h|h|h|h|⟨hc, hp⟩
    · exact absurd (by simp [h]) hc1
    · exact absurd (by simp [h]) hc1
    · exact absurd (by simp [h]) hc2
    · exact absurd (by simp [h]) hc2
    · have hmem' : ':' ∈ Validate.toLowerChars host := List.mem_of_elem_eq_true hc
      rcases hp with hp|hp|hp <;>
        simp [Validate.isBlockedIpLiteral, hc1, hc2, hmem', hp]
  · intro t h p hparse hbad
    unfold Validate.validateTcpTarget
    rw [hparse]
    by_cases g1 : ((String.mk (Validate.trimChars h.data)).data.length == 0) = true
    · simp [g1]
    by_cases g2 : (Validate.toLowerChars (String.mk (Validate.trimChars h.data))
        == "localhost".data) = true
    · simp [g1, g2]
    by_cases g3 : Validate.isBlockedIpLiteral (String.mk (Validate.trimChars h.data)) = true
    · simp [g1, g2, g3]
    by_cases g4 : (!(Validate.isAllowedPort p)) = true
    · simp [g1, g2, g3, g4]
    exfalso
    rcases hbad with hb|hb|hb
    · exact g2 (by simp [hb])
    · exact g3 hb
    · simp only [Bool.not_eq_true'] at g4
      exact g4 hb

theorem targetValidation_amended_witness :
    Validate.isIpv4Literal "10.1.2.3" = true ∧
      Validate.specBlockedIpv4 (Validate.ipv4ToInt "10.1.2.3") ∧
      Validate.isBlockedIpLiteral "10.1.2.3" = true ∧
      Validate.validateTcpTarget "localhost:2000" ≠ none :=
  ⟨by decide, by decide,
    targetValidation_amended.2.1 "10.1.2.3" (by decide) (by decide),
    targetValidation_amended.2.2.2 "localhost:2000" "localhost" 2000 (by decide)
      (Or.inl (by decide))⟩

end Uptimer
